import Mathlib

/-!
A shallow embedding of `src/stock_trading_engine.cpp` (classes `Order`,
`PriorityQueue`, `OrderBook`) together with proofs about the claims of the
specification.

Modelling conventions:
* `price` is a C++ `double` used only in order comparisons; it is embedded as
  an exact rational (`ℚ`), which matches IEEE comparison on all non-NaN values.
* C++ `int` fields (`quantity`, `order_id`) are embedded as `Int`; no claim
  depends on 32-bit wrap-around and every modelled scenario stays far below
  `2^31`.
* `ticker` is a C++ `int`; a negative ticker makes `ticker % max_tickers`
  negative and the vector accesses `buy_orders[index]` / `sell_orders[index]`
  are out of bounds (undefined behavior), so the embedding takes `ticker : ℕ`,
  on which `%` agrees with C++.
* The linked-list `PriorityQueue` is embedded as a `List Order` whose head is
  the list head of the C++ structure; `pop` on an empty queue throws
  `std::runtime_error("Queue is empty")`, embedded as `Except String`.
* The source reports an executed trade by printing (line 150) the traded
  quantity, the ticker argument, and `executed_sell.price`; following §3 of
  the specification these values, together with the two order ids that are in
  scope at that point, are collected in a `Trade` record.
* The spin locks only serialize access; all claims here are about sequential
  runs (`add_order` invocations one after the other), so the locks have no
  observable effect and are not modelled.
-/

namespace StockEngine

/-- The `Order` class (lines 16-27): order type ("Buy" or "Sell"), ticker,
quantity, price, unique order id. -/
structure Order where
  order_type : String
  ticker : Nat
  quantity : Int
  price : ℚ
  order_id : Int
deriving DecidableEq

/-- The trade record emitted for one execution (printed at line 150):
quantity and price as printed (`executed_sell.price`), the ticker argument of
`match_order`, and the ids of the two executed orders. -/
structure Trade where
  ticker : Nat
  quantity : Int
  price : ℚ
  buy_order_id : Int
  sell_order_id : Int
deriving DecidableEq

namespace PriorityQueue

/-- The walk of `PriorityQueue::insert` (lines 66-71): starting from the
successor of the head, advance while the next node's order is strictly better
(greater price for a max-heap, smaller for a min-heap), then link the new node
in. -/
def insertLoop (is_max_heap : Bool) (order : Order) : List Order → List Order
  | [] => [order]
  | x :: xs =>
    if (is_max_heap && decide (x.price > order.price))
        || (!is_max_heap && decide (x.price < order.price)) then
      x :: insertLoop is_max_heap order xs
    else
      order :: x :: xs

/-- `PriorityQueue::insert` (lines 60-73): prepend when the list is empty or
the new order is strictly better than the head, otherwise keep the head and
run the walk over the tail. -/
def insert (is_max_heap : Bool) (order : Order) : List Order → List Order
  | [] => [order]
  | h :: t =>
    if (is_max_heap && decide (order.price > h.price))
        || (!is_max_heap && decide (order.price < h.price)) then
      order :: h :: t
    else
      h :: insertLoop is_max_heap order t

/-- `PriorityQueue::pop` (lines 75-82): throws `runtime_error("Queue is
empty")` on an empty queue, otherwise removes and returns the head. -/
def pop : List Order → Except String (Order × List Order)
  | [] => .error "Queue is empty"
  | h :: t => .ok (h, t)

/-- `PriorityQueue::peek` (lines 84-86): the head order, if any. -/
def peek : List Order → Option Order
  | [] => none
  | h :: _ => some h

/-- `PriorityQueue::is_empty` (lines 88-90). -/
def is_empty (l : List Order) : Bool := l.isEmpty

end PriorityQueue

/-- `OrderBook::max_tickers` (line 102). -/
def max_tickers : Nat := 1024

/-- The `OrderBook` state (lines 100-107): per-slot buy and sell queues and
the global order id counter.  Slot `i` holds `buy_orders[i]` (a max-heap
queue) and `sell_orders[i]` (a min-heap queue); only slots below
`max_tickers` are ever accessed. -/
structure OrderBook where
  buy_orders : Nat → List Order
  sell_orders : Nat → List Order
  order_id_counter : Int

/-- The freshly constructed `OrderBook` (line 109): all queues empty, counter
zero. -/
def OrderBook.start : OrderBook :=
  { buy_orders := fun _ => [], sell_orders := fun _ => [], order_id_counter := 0 }

/-- Pointwise update of one slot of a queue array. -/
def setQ (f : Nat → List Order) (i : Nat) (v : List Order) : Nat → List Order :=
  fun j => if j = i then v else f j

/-- One iteration of the while-loop of `OrderBook::match_order`
(lines 138-161) on the two queues of one slot: if either queue is empty the
loop exits (`.ok none`); otherwise the two best orders are peeked and, when
`best_buy->price >= best_sell->price`, popped, traded at
`min` quantity, and each reinserted into its queue when its remaining
quantity is still positive.  The result carries the new queues and the trade
record; exceptions from `pop` are propagated. -/
def matchStep (ticker : Nat) (buys sells : List Order) :
    Except String (Option (List Order × List Order × Trade)) :=
  if !(PriorityQueue.is_empty buys) && !(PriorityQueue.is_empty sells) then
    match PriorityQueue.peek buys, PriorityQueue.peek sells with
    | some best_buy, some best_sell =>
      if best_buy.price ≥ best_sell.price then
        match PriorityQueue.pop buys with
        | .error e => .error e
        | .ok (executed_buy, buys') =>
          match PriorityQueue.pop sells with
          | .error e => .error e
          | .ok (executed_sell, sells') =>
            let trade_quantity := min executed_buy.quantity executed_sell.quantity
            let executed_buy' := { executed_buy with quantity := executed_buy.quantity - trade_quantity }
            let executed_sell' := { executed_sell with quantity := executed_sell.quantity - trade_quantity }
            .ok (some
              ( if executed_buy'.quantity > 0 then PriorityQueue.insert true executed_buy' buys' else buys',
                if executed_sell'.quantity > 0 then PriorityQueue.insert false executed_sell' sells' else sells',
                { ticker := ticker
                  quantity := trade_quantity
                  price := executed_sell.price
                  buy_order_id := executed_buy.order_id
                  sell_order_id := executed_sell.order_id } ))
      else
        .ok none
    | _, _ => .error "Queue is empty"
  else
    .ok none

/-- The while-loop of `OrderBook::match_order`, fuelled: the C++ loop runs
until it exits by itself; `matchLoop_reaches_terminal` below shows that fuel
equal to the total number of queued orders always suffices, so the fuelled
loop with that fuel computes the loop's actual result. -/
def matchLoop (ticker : Nat) : Nat → List Order → List Order →
    Except String (List Order × List Order × List Trade)
  | 0, buys, sells => .ok (buys, sells, [])
  | fuel + 1, buys, sells =>
    match matchStep ticker buys sells with
    | .error e => .error e
    | .ok none => .ok (buys, sells, [])
    | .ok (some (buys', sells', trade)) =>
      match matchLoop ticker fuel buys' sells' with
      | .error e => .error e
      | .ok (buys'', sells'', trades) => .ok (buys'', sells'', trade :: trades)

/-- `OrderBook::match_order` (lines 134-163): run the matching loop on the
queues of slot `ticker % max_tickers` and store the resulting queues back. -/
def OrderBook.match_order (bk : OrderBook) (ticker : Nat) :
    Except String (OrderBook × List Trade) :=
  let index := ticker % max_tickers
  let buys := bk.buy_orders index
  let sells := bk.sell_orders index
  match matchLoop ticker (buys.length + sells.length) buys sells with
  | .error e => .error e
  | .ok (buys', sells', trades) =>
    .ok ({ bk with
           buy_orders := setQ bk.buy_orders index buys'
           sell_orders := setQ bk.sell_orders index sells' }, trades)

/-- The insertion section of `OrderBook::add_order` (lines 112-123): allocate
the next order id, build the order, and insert it into the buy queue of slot
`ticker % max_tickers` when the type is "Buy" and into the sell queue
otherwise.  No validation of quantity, price or ticker is performed. -/
def OrderBook.insert_order (bk : OrderBook) (order_type : String) (ticker : Nat)
    (quantity : Int) (price : ℚ) : OrderBook :=
  let order : Order := { order_type := order_type
                         ticker := ticker
                         quantity := quantity
                         price := price
                         order_id := bk.order_id_counter }
  let index := ticker % max_tickers
  if order_type = "Buy" then
    { bk with
      order_id_counter := bk.order_id_counter + 1
      buy_orders := setQ bk.buy_orders index
        (PriorityQueue.insert true order (bk.buy_orders index)) }
  else
    { bk with
      order_id_counter := bk.order_id_counter + 1
      sell_orders := setQ bk.sell_orders index
        (PriorityQueue.insert false order (bk.sell_orders index)) }

/-- `OrderBook::add_order` (lines 111-126): insert the new order, then run
`match_order` on the same ticker. -/
def OrderBook.add_order (bk : OrderBook) (order_type : String) (ticker : Nat)
    (quantity : Int) (price : ℚ) : Except String (OrderBook × List Trade) :=
  (bk.insert_order order_type ticker quantity price).match_order ticker

/-- One submission to the engine: the four arguments of `add_order`. -/
structure Submission where
  order_type : String
  ticker : Nat
  quantity : Int
  price : ℚ
deriving DecidableEq

/-- Sequential execution of a list of submissions against a given book,
collecting all emitted trades in order. -/
def runScriptAux : OrderBook → List Submission →
    Except String (OrderBook × List Trade)
  | bk, [] => .ok (bk, [])
  | bk, sub :: rest =>
    match bk.add_order sub.order_type sub.ticker sub.quantity sub.price with
    | .error e => .error e
    | .ok (bk', trades) =>
      match runScriptAux bk' rest with
      | .error e => .error e
      | .ok (bk'', trades') => .ok (bk'', trades ++ trades')

/-- Sequential execution of a list of submissions against a fresh book. -/
def runScript (subs : List Submission) : Except String (OrderBook × List Trade) :=
  runScriptAux OrderBook.start subs

/-- The book part of a run result; a run that threw is projected to the fresh
book (no run in this development throws). -/
def booksOf (r : Except String (OrderBook × List Trade)) : OrderBook :=
  match r with
  | .ok (bk, _) => bk
  | .error _ => OrderBook.start

/-- The trades part of a run result. -/
def tradesOf (r : Except String (OrderBook × List Trade)) : List Trade :=
  match r with
  | .ok (_, trades) => trades
  | .error _ => []

/-- The book after one `add_order` call; a call that threw is projected to
the unchanged book (no call in this development throws). -/
def addBook (bk : OrderBook) (order_type : String) (ticker : Nat)
    (quantity : Int) (price : ℚ) : OrderBook :=
  match bk.add_order order_type ticker quantity price with
  | .ok (bk', _) => bk'
  | .error _ => bk

/-- The result of one full matching pass over a pair of queues, run with the
always-sufficient fuel used by `match_order`. -/
def matchRun (ticker : Nat) (buys sells : List Order) :
    List Order × List Order × List Trade :=
  match matchLoop ticker (buys.length + sells.length) buys sells with
  | .ok r => r
  | .error _ => (buys, sells, [])

/-- A queue built by a sequence of insertions into an initially empty
`PriorityQueue`. -/
def buildQ (is_max_heap : Bool) (orders : List Order) : List Order :=
  orders.foldl (fun q o => PriorityQueue.insert is_max_heap o q) []

/-- Priority key of an order in a queue: in a max-heap queue the negated
price, in a min-heap queue the price itself, so that in both cases a smaller
key means higher priority. -/
def pkey (is_max_heap : Bool) (o : Order) : ℚ :=
  if is_max_heap then -o.price else o.price

/-- Queue order relation: `a` has priority at least as high as `b`. -/
def pqLE (is_max_heap : Bool) (a b : Order) : Prop :=
  pkey is_max_heap a ≤ pkey is_max_heap b

/-- A queue is sorted when every order has priority at least as high as every
order behind it; this is the shape `PriorityQueue::insert` maintains. -/
def qSorted (is_max_heap : Bool) (l : List Order) : Prop :=
  l.Pairwise (pqLE is_max_heap)

/-- Total quantity resting in a queue. -/
def sumQty : List Order → Int
  | [] => 0
  | o :: t => o.quantity + sumQty t

/-- Total quantity over a list of trades. -/
def sumTrades : List Trade → Int
  | [] => 0
  | t :: ts => t.quantity + sumTrades ts

/-- Total traded quantity attributed to slot `i`: a trade is attributed to
the slot of the ticker it was reported for. -/
def tradedAt (i : Nat) : List Trade → Int
  | [] => 0
  | t :: ts => (if t.ticker % max_tickers = i then t.quantity else 0) + tradedAt i ts

/-- Total quantity of the buy submissions of a script that route to slot `i`. -/
def submittedBuys (i : Nat) : List Submission → Int
  | [] => 0
  | s :: rest =>
    (if s.order_type = "Buy" ∧ s.ticker % max_tickers = i then s.quantity else 0)
      + submittedBuys i rest

/-- Total quantity of the sell submissions of a script that route to slot
`i` (any order type other than "Buy" is routed to the sell queue). -/
def submittedSells (i : Nat) : List Submission → Int
  | [] => 0
  | s :: rest =>
    (if ¬s.order_type = "Buy" ∧ s.ticker % max_tickers = i then s.quantity else 0)
      + submittedSells i rest

/-- The outcome of one executing iteration of the matching loop on non-empty
queues, written out explicitly: `matchStep_cons` below proves that `matchStep`
computes exactly this when the best buy covers the best sell. -/
def stepResult (ticker : Nat) (bb : Order) (bt : List Order) (bs : Order) (st : List Order) :
    List Order × List Order × Trade :=
  let trade_quantity := min bb.quantity bs.quantity
  ( if bb.quantity - trade_quantity > 0 then
      PriorityQueue.insert true { bb with quantity := bb.quantity - trade_quantity } bt
    else bt,
    if bs.quantity - trade_quantity > 0 then
      PriorityQueue.insert false { bs with quantity := bs.quantity - trade_quantity } st
    else st,
    { ticker := ticker
      quantity := trade_quantity
      price := bs.price
      buy_order_id := bb.order_id
      sell_order_id := bs.order_id } )

/-- Well-formedness of a book: every queue is sorted the way
`PriorityQueue::insert` keeps it, and no slot is crossed (every resting buy
price is strictly below every resting sell price of the same slot). -/
def BookInv (bk : OrderBook) : Prop :=
  ∀ i, qSorted true (bk.buy_orders i) ∧ qSorted false (bk.sell_orders i) ∧
    ∀ x ∈ bk.buy_orders i, ∀ y ∈ bk.sell_orders i, x.price < y.price

/-! ### Lemmas about `PriorityQueue.insert` -/

/-- The strictly-better test of `PriorityQueue::insert`, uniformly: order `u`
beats order `v` exactly when `u`'s priority key is strictly smaller. -/
theorem insert_cond_eq (m : Bool) (u v : Order) :
    ((m && decide (u.price > v.price)) || (!m && decide (u.price < v.price)))
      = decide (pkey m u < pkey m v) := by
  cases m <;> simp [pkey]

theorem insertLoop_mem (m : Bool) (o x : Order) (l : List Order) :
    x ∈ PriorityQueue.insertLoop m o l ↔ x = o ∨ x ∈ l := by
  induction l with
  | nil => simp [PriorityQueue.insertLoop]
  | cons a t ih =>
    rw [PriorityQueue.insertLoop]
    by_cases h : ((m && decide (a.price > o.price)) || (!m && decide (a.price < o.price))) = true
    · simp only [h, if_true, List.mem_cons, ih]
      tauto
    · simp only [eq_false_of_ne_true h, Bool.false_eq_true, if_false, List.mem_cons]

theorem insert_mem (m : Bool) (o x : Order) (l : List Order) :
    x ∈ PriorityQueue.insert m o l ↔ x = o ∨ x ∈ l := by
  cases l with
  | nil => simp [PriorityQueue.insert]
  | cons h t =>
    rw [PriorityQueue.insert]
    by_cases hc : ((m && decide (o.price > h.price)) || (!m && decide (o.price < h.price))) = true
    · simp only [hc, if_true, List.mem_cons]
    · simp only [eq_false_of_ne_true hc, Bool.false_eq_true, if_false, List.mem_cons,
        insertLoop_mem]
      tauto

theorem insertLoop_length (m : Bool) (o : Order) (l : List Order) :
    (PriorityQueue.insertLoop m o l).length = l.length + 1 := by
  induction l with
  | nil => rfl
  | cons a t ih =>
    rw [PriorityQueue.insertLoop]
    by_cases h : ((m && decide (a.price > o.price)) || (!m && decide (a.price < o.price))) = true
    · simp [h, ih]
    · simp [h]

theorem insert_length (m : Bool) (o : Order) (l : List Order) :
    (PriorityQueue.insert m o l).length = l.length + 1 := by
  cases l with
  | nil => rfl
  | cons h t =>
    rw [PriorityQueue.insert]
    by_cases hc : ((m && decide (o.price > h.price)) || (!m && decide (o.price < h.price))) = true
    · simp [hc]
    · simp [hc, insertLoop_length]

theorem insertLoop_sumQty (m : Bool) (o : Order) (l : List Order) :
    sumQty (PriorityQueue.insertLoop m o l) = o.quantity + sumQty l := by
  induction l with
  | nil => rfl
  | cons a t ih =>
    rw [PriorityQueue.insertLoop]
    by_cases h : ((m && decide (a.price > o.price)) || (!m && decide (a.price < o.price))) = true
    · simp only [h, if_true, sumQty, ih]
      ring
    · simp only [h, if_false, sumQty]

theorem insert_sumQty (m : Bool) (o : Order) (l : List Order) :
    sumQty (PriorityQueue.insert m o l) = o.quantity + sumQty l := by
  cases l with
  | nil => rfl
  | cons h t =>
    rw [PriorityQueue.insert]
    by_cases hc : ((m && decide (o.price > h.price)) || (!m && decide (o.price < h.price))) = true
    · simp only [hc, if_true, sumQty]
    · simp only [hc, if_false, sumQty, insertLoop_sumQty]
      ring

theorem insertLoop_pairwise (m : Bool) (o : Order) (l : List Order)
    (hl : qSorted m l) : qSorted m (PriorityQueue.insertLoop m o l) := by
  induction l with
  | nil => simp [PriorityQueue.insertLoop, qSorted]
  | cons a t ih =>
    rw [qSorted, List.pairwise_cons] at hl
    obtain ⟨ha, ht⟩ := hl
    rw [PriorityQueue.insertLoop]
    by_cases h : ((m && decide (a.price > o.price)) || (!m && decide (a.price < o.price))) = true
    · have hao : pkey m a < pkey m o := by
        rw [insert_cond_eq] at h
        exact of_decide_eq_true h
      simp only [h, if_true]
      rw [qSorted, List.pairwise_cons]
      refine ⟨?_, ih ht⟩
      intro b hb
      rcases (insertLoop_mem m o b t).1 hb with rfl | hbt
      · exact le_of_lt hao
      · exact ha b hbt
    · have hoa : ¬ pkey m a < pkey m o := by
        rw [insert_cond_eq] at h
        simpa using h
      simp only [eq_false_of_ne_true h, Bool.false_eq_true, if_false]
      rw [qSorted, List.pairwise_cons]
      constructor
      · intro b hb
        rcases List.mem_cons.1 hb with rfl | hbt
        · exact le_of_not_lt hoa
        · exact le_trans (le_of_not_lt hoa) (ha b hbt)
      · rw [List.pairwise_cons]
        exact ⟨ha, ht⟩

theorem insert_pairwise (m : Bool) (o : Order) (l : List Order)
    (hl : qSorted m l) : qSorted m (PriorityQueue.insert m o l) := by
  cases l with
  | nil => simp [PriorityQueue.insert, qSorted]
  | cons h t =>
    rw [qSorted, List.pairwise_cons] at hl
    obtain ⟨hh, ht⟩ := hl
    rw [PriorityQueue.insert]
    by_cases hc : ((m && decide (o.price > h.price)) || (!m && decide (o.price < h.price))) = true
    · have hoh : pkey m o < pkey m h := by
        rw [insert_cond_eq] at hc
        exact of_decide_eq_true hc
      simp only [hc, if_true]
      rw [qSorted, List.pairwise_cons]
      constructor
      · intro b hb
        rcases List.mem_cons.1 hb with rfl | hbt
        · exact le_of_lt hoh
        · exact le_trans (le_of_lt hoh) (hh b hbt)
      · rw [List.pairwise_cons]
        exact ⟨hh, ht⟩
    · have hho : ¬ pkey m o < pkey m h := by
        rw [insert_cond_eq] at hc
        simpa using hc
      simp only [eq_false_of_ne_true hc, Bool.false_eq_true, if_false]
      rw [qSorted, List.pairwise_cons]
      refine ⟨?_, insertLoop_pairwise m o t ht⟩
      intro b hb
      rcases (insertLoop_mem m o b t).1 hb with rfl | hbt
      · exact le_of_not_lt hho
      · exact hh b hbt

/-- In a sorted queue the head has the smallest priority key of all queued
orders. -/
theorem sorted_head_min (m : Bool) (h : Order) (t : List Order)
    (hp : qSorted m (h :: t)) : ∀ x ∈ h :: t, pkey m h ≤ pkey m x := by
  intro x hx
  rcases List.mem_cons.1 hx with rfl | hxt
  · exact le_refl _
  · exact ((List.pairwise_cons.1 hp).1) x hxt

theorem buildQ_sorted (m : Bool) (orders : List Order) :
    qSorted m (buildQ m orders) := by
  have key : ∀ (l : List Order) (q : List Order), qSorted m q →
      qSorted m (l.foldl (fun acc o => PriorityQueue.insert m o acc) q) := by
    intro l
    induction l with
    | nil => intro q hq; exact hq
    | cons a t ih =>
      intro q hq
      exact ih _ (insert_pairwise m a q hq)
  exact key orders [] (by simp [qSorted])

/-! ### Lemmas about one iteration of the matching loop -/

theorem matchStep_nil_left (tk : Nat) (sells : List Order) :
    matchStep tk [] sells = .ok none := rfl

theorem matchStep_nil_right (tk : Nat) (buys : List Order) :
    matchStep tk buys [] = .ok none := by
  cases buys <;> rfl

theorem matchStep_cons (tk : Nat) (bb bs : Order) (bt st : List Order) :
    matchStep tk (bb :: bt) (bs :: st) =
      if bb.price ≥ bs.price then .ok (some (stepResult tk bb bt bs st))
      else .ok none := by
  by_cases h : bb.price ≥ bs.price <;>
    simp [matchStep, stepResult, PriorityQueue.is_empty, PriorityQueue.peek,
      PriorityQueue.pop, h]

theorem matchStep_ok (tk : Nat) (buys sells : List Order) :
    ∃ r, matchStep tk buys sells = .ok r := by
  cases buys with
  | nil => exact ⟨none, rfl⟩
  | cons bb bt =>
    cases sells with
    | nil => exact ⟨none, matchStep_nil_right tk _⟩
    | cons bs st =>
      rw [matchStep_cons]
      by_cases h : bb.price ≥ bs.price
      · exact ⟨some (stepResult tk bb bt bs st), by rw [if_pos h]⟩
      · exact ⟨none, by rw [if_neg h]⟩

theorem matchStep_none_not_crossed (tk : Nat) (bb bs : Order) (bt st : List Order)
    (h : matchStep tk (bb :: bt) (bs :: st) = .ok none) : bb.price < bs.price := by
  rw [matchStep_cons] at h
  by_cases hc : bb.price ≥ bs.price
  · rw [if_pos hc] at h
    simp at h
  · exact lt_of_not_ge hc

theorem matchStep_some_inv (tk : Nat) (buys sells b' s' : List Order) (t : Trade)
    (h : matchStep tk buys sells = .ok (some (b', s', t))) :
    ∃ bb bt bs st, buys = bb :: bt ∧ sells = bs :: st ∧ bs.price ≤ bb.price ∧
      stepResult tk bb bt bs st = (b', s', t) := by
  cases buys with
  | nil =>
    rw [matchStep_nil_left] at h
    simp at h
  | cons bb bt =>
    cases sells with
    | nil =>
      rw [matchStep_nil_right] at h
      simp at h
    | cons bs st =>
      rw [matchStep_cons] at h
      by_cases hc : bb.price ≥ bs.price
      · rw [if_pos hc] at h
        refine ⟨bb, bt, bs, st, rfl, rfl, hc, ?_⟩
        simpa using h
      · rw [if_neg hc] at h
        simp at h

theorem stepResult_trade (tk : Nat) (bb bs : Order) (bt st : List Order) :
    (stepResult tk bb bt bs st).2.2 =
      { ticker := tk
        quantity := min bb.quantity bs.quantity
        price := bs.price
        buy_order_id := bb.order_id
        sell_order_id := bs.order_id } := by
  simp [stepResult]

theorem stepResult_len (tk : Nat) (bb bs : Order) (bt st : List Order) :
    (stepResult tk bb bt bs st).1.length + (stepResult tk bb bt bs st).2.1.length
      < (bb :: bt).length + (bs :: st).length := by
  have h1 : min bb.quantity bs.quantity ≤ bb.quantity := min_le_left _ _
  have h2 : min bb.quantity bs.quantity ≤ bs.quantity := min_le_right _ _
  have h3 : min bb.quantity bs.quantity = bb.quantity ∨
      min bb.quantity bs.quantity = bs.quantity := min_choice _ _
  simp only [stepResult, List.length_cons]
  by_cases hb : bb.quantity - min bb.quantity bs.quantity > 0 <;>
    by_cases hs : bs.quantity - min bb.quantity bs.quantity > 0
  · exact absurd h3 (by omega)
  · rw [if_pos hb, if_neg hs, insert_length]
    omega
  · rw [if_neg hb, if_pos hs, insert_length]
    omega
  · rw [if_neg hb, if_neg hs]
    omega

theorem stepResult_sumBuy (tk : Nat) (bb bs : Order) (bt st : List Order) :
    sumQty (stepResult tk bb bt bs st).1 =
      sumQty (bb :: bt) - (stepResult tk bb bt bs st).2.2.quantity := by
  have h1 : min bb.quantity bs.quantity ≤ bb.quantity := min_le_left _ _
  rw [stepResult_trade]
  simp only [stepResult, sumQty]
  by_cases hb : bb.quantity - min bb.quantity bs.quantity > 0
  · rw [if_pos hb, insert_sumQty]
    dsimp only
    omega
  · rw [if_neg hb]
    omega

theorem stepResult_sumSell (tk : Nat) (bb bs : Order) (bt st : List Order) :
    sumQty (stepResult tk bb bt bs st).2.1 =
      sumQty (bs :: st) - (stepResult tk bb bt bs st).2.2.quantity := by
  have h2 : min bb.quantity bs.quantity ≤ bs.quantity := min_le_right _ _
  rw [stepResult_trade]
  simp only [stepResult, sumQty]
  by_cases hs : bs.quantity - min bb.quantity bs.quantity > 0
  · rw [if_pos hs, insert_sumQty]
    dsimp only
    omega
  · rw [if_neg hs]
    omega

theorem stepResult_sell_mem (tk : Nat) (bb bs : Order) (bt st : List Order) :
    ∀ y ∈ (stepResult tk bb bt bs st).2.1,
      ∃ o ∈ bs :: st, o.order_id = y.order_id ∧ o.price = y.price := by
  intro y hy
  simp only [stepResult] at hy
  by_cases hs : bs.quantity - min bb.quantity bs.quantity > 0
  · rw [if_pos hs] at hy
    rcases (insert_mem false _ y st).1 hy with rfl | hyt
    · exact ⟨bs, List.mem_cons_self _ _, rfl, rfl⟩
    · exact ⟨y, List.mem_cons_of_mem _ hyt, rfl, rfl⟩
  · rw [if_neg hs] at hy
    exact ⟨y, List.mem_cons_of_mem _ hy, rfl, rfl⟩

theorem stepResult_sorted (tk : Nat) (bb bs : Order) (bt st : List Order)
    (hb : qSorted true (bb :: bt)) (hs : qSorted false (bs :: st)) :
    qSorted true (stepResult tk bb bt bs st).1 ∧
      qSorted false (stepResult tk bb bt bs st).2.1 := by
  have hbt : qSorted true bt := (List.pairwise_cons.1 hb).2
  have hst : qSorted false st := (List.pairwise_cons.1 hs).2
  constructor
  · simp only [stepResult]
    by_cases hq : bb.quantity - min bb.quantity bs.quantity > 0
    · rw [if_pos hq]
      exact insert_pairwise true _ bt hbt
    · rw [if_neg hq]
      exact hbt
  · simp only [stepResult]
    by_cases hq : bs.quantity - min bb.quantity bs.quantity > 0
    · rw [if_pos hq]
      exact insert_pairwise false _ st hst
    · rw [if_neg hq]
      exact hst

/-! ### Lemmas about the matching loop -/

theorem matchLoop_zero (tk : Nat) (buys sells : List Order) :
    matchLoop tk 0 buys sells = .ok (buys, sells, []) := rfl

theorem matchLoop_succ_none (tk n : Nat) (buys sells : List Order)
    (h : matchStep tk buys sells = .ok none) :
    matchLoop tk (n + 1) buys sells = .ok (buys, sells, []) := by
  rw [matchLoop, h]

theorem matchLoop_succ_some (tk n : Nat) (buys sells b' s' : List Order) (t : Trade)
    (h : matchStep tk buys sells = .ok (some (b', s', t))) :
    matchLoop tk (n + 1) buys sells =
      match matchLoop tk n b' s' with
      | .error e => .error e
      | .ok (b2, s2, ts) => .ok (b2, s2, t :: ts) := by
  rw [matchLoop, h]

theorem matchLoop_ok (tk : Nat) :
    ∀ (fuel : Nat) (buys sells : List Order),
      ∃ r, matchLoop tk fuel buys sells = .ok r := by
  intro fuel
  induction fuel with
  | zero => intro buys sells; exact ⟨(buys, sells, []), rfl⟩
  | succ n ih =>
    intro buys sells
    obtain ⟨r, hr⟩ := matchStep_ok tk buys sells
    cases r with
    | none => exact ⟨(buys, sells, []), matchLoop_succ_none tk n buys sells hr⟩
    | some x =>
      obtain ⟨b', s', t⟩ := x
      obtain ⟨⟨b2, s2, ts⟩, h2⟩ := ih b' s'
      exact ⟨(b2, s2, t :: ts),
        by rw [matchLoop_succ_some tk n buys sells b' s' t hr, h2]⟩

theorem matchLoop_succ_inv (tk n : Nat) (buys sells b2 s2 : List Order) (ts : List Trade)
    (h : matchLoop tk (n + 1) buys sells = .ok (b2, s2, ts)) :
    (matchStep tk buys sells = .ok none ∧ b2 = buys ∧ s2 = sells ∧ ts = []) ∨
    (∃ b' s' t tts, matchStep tk buys sells = .ok (some (b', s', t)) ∧
      matchLoop tk n b' s' = .ok (b2, s2, tts) ∧ ts = t :: tts) := by
  obtain ⟨r, hr⟩ := matchStep_ok tk buys sells
  cases r with
  | none =>
    left
    rw [matchLoop_succ_none tk n buys sells hr] at h
    simp only [Except.ok.injEq, Prod.mk.injEq] at h
    exact ⟨hr, h.1.symm, h.2.1.symm, h.2.2.symm⟩
  | some x =>
    obtain ⟨b', s', t⟩ := x
    right
    obtain ⟨⟨bb2, ss2, tts⟩, h2⟩ := matchLoop_ok tk n b' s'
    rw [matchLoop_succ_some tk n buys sells b' s' t hr, h2] at h
    simp only [Except.ok.injEq, Prod.mk.injEq] at h
    refine ⟨b', s', t, tts, hr, ?_, h.2.2.symm⟩
    rw [h2, h.1, h.2.1]

theorem matchStep_some_len (tk : Nat) (buys sells b' s' : List Order) (t : Trade)
    (h : matchStep tk buys sells = .ok (some (b', s', t))) :
    b'.length + s'.length < buys.length + sells.length := by
  obtain ⟨bb, bt, bs, st, rfl, rfl, hge, hstep⟩ :=
    matchStep_some_inv tk buys sells b' s' t h
  have hd := stepResult_len tk bb bs bt st
  rw [hstep] at hd
  exact hd

theorem matchLoop_reaches_terminal (tk : Nat) :
    ∀ (fuel : Nat) (buys sells b2 s2 : List Order) (ts : List Trade),
      buys.length + sells.length ≤ fuel →
      matchLoop tk fuel buys sells = .ok (b2, s2, ts) →
      matchStep tk b2 s2 = .ok none := by
  intro fuel
  induction fuel with
  | zero =>
    intro buys sells b2 s2 ts hlen h
    have hb : buys.length = 0 := by omega
    have hs : sells.length = 0 := by omega
    rw [List.length_eq_zero] at hb hs
    subst hb hs
    rw [matchLoop_zero] at h
    simp only [Except.ok.injEq, Prod.mk.injEq] at h
    rw [← h.1]
    exact matchStep_nil_left tk s2
  | succ n ih =>
    intro buys sells b2 s2 ts hlen h
    rcases matchLoop_succ_inv tk n buys sells b2 s2 ts h with
      ⟨hstep, rfl, rfl, rfl⟩ | ⟨b', s', t, tts, hstep, hrec, rfl⟩
    · exact hstep
    · have hd := matchStep_some_len tk buys sells b' s' t hstep
      exact ih b' s' b2 s2 tts (by omega) hrec

theorem matchLoop_trades_len (tk : Nat) :
    ∀ (fuel : Nat) (buys sells b2 s2 : List Order) (ts : List Trade),
      matchLoop tk fuel buys sells = .ok (b2, s2, ts) →
      ts.length ≤ buys.length + sells.length := by
  intro fuel
  induction fuel with
  | zero =>
    intro buys sells b2 s2 ts h
    rw [matchLoop_zero] at h
    simp only [Except.ok.injEq, Prod.mk.injEq] at h
    rw [← h.2.2]
    simp
  | succ n ih =>
    intro buys sells b2 s2 ts h
    rcases matchLoop_succ_inv tk n buys sells b2 s2 ts h with
      ⟨hstep, rfl, rfl, rfl⟩ | ⟨b', s', t, tts, hstep, hrec, rfl⟩
    · simp
    · have hd := matchStep_some_len tk buys sells b' s' t hstep
      have := ih b' s' b2 s2 tts hrec
      simp only [List.length_cons]
      omega

theorem matchStep_some_sums (tk : Nat) (buys sells b' s' : List Order) (t : Trade)
    (h : matchStep tk buys sells = .ok (some (b', s', t))) :
    sumQty b' = sumQty buys - t.quantity ∧ sumQty s' = sumQty sells - t.quantity := by
  obtain ⟨bb, bt, bs, st, rfl, rfl, hge, hstep⟩ :=
    matchStep_some_inv tk buys sells b' s' t h
  have h1 := stepResult_sumBuy tk bb bs bt st
  have h2 := stepResult_sumSell tk bb bs bt st
  rw [hstep] at h1 h2
  exact ⟨h1, h2⟩

theorem matchLoop_sums (tk : Nat) :
    ∀ (fuel : Nat) (buys sells b2 s2 : List Order) (ts : List Trade),
      matchLoop tk fuel buys sells = .ok (b2, s2, ts) →
      sumQty b2 + sumTrades ts = sumQty buys ∧
        sumQty s2 + sumTrades ts = sumQty sells := by
  intro fuel
  induction fuel with
  | zero =>
    intro buys sells b2 s2 ts h
    rw [matchLoop_zero] at h
    simp only [Except.ok.injEq, Prod.mk.injEq] at h
    rw [← h.1, ← h.2.1, ← h.2.2]
    simp [sumTrades]
  | succ n ih =>
    intro buys sells b2 s2 ts h
    rcases matchLoop_succ_inv tk n buys sells b2 s2 ts h with
      ⟨hstep, rfl, rfl, rfl⟩ | ⟨b', s', t, tts, hstep, hrec, rfl⟩
    · simp [sumTrades]
    · obtain ⟨hb, hs⟩ := matchStep_some_sums tk buys sells b' s' t hstep
      obtain ⟨ihb, ihs⟩ := ih b' s' b2 s2 tts hrec
      constructor
      · simp only [sumTrades]
        omega
      · simp only [sumTrades]
        omega

theorem matchStep_some_sell_source (tk : Nat) (buys sells b' s' : List Order) (t : Trade)
    (h : matchStep tk buys sells = .ok (some (b', s', t))) :
    (∃ o ∈ sells, o.order_id = t.sell_order_id ∧ o.price = t.price) ∧
      ∀ y ∈ s', ∃ o ∈ sells, o.order_id = y.order_id ∧ o.price = y.price := by
  obtain ⟨bb, bt, bs, st, rfl, rfl, hge, hstep⟩ :=
    matchStep_some_inv tk buys sells b' s' t h
  constructor
  · have ht : t = ⟨tk, min bb.quantity bs.quantity, bs.price, bb.order_id, bs.order_id⟩ := by
      have h0 := stepResult_trade tk bb bs bt st
      rw [hstep] at h0
      exact h0
    exact ⟨bs, List.mem_cons_self _ _, by rw [ht], by rw [ht]⟩
  · intro y hy
    have hm := stepResult_sell_mem tk bb bs bt st
    rw [hstep] at hm
    exact hm y hy

theorem matchLoop_sell_source (tk : Nat) :
    ∀ (fuel : Nat) (buys sells b2 s2 : List Order) (ts : List Trade),
      matchLoop tk fuel buys sells = .ok (b2, s2, ts) →
      ∀ t ∈ ts, ∃ o ∈ sells, o.order_id = t.sell_order_id ∧ o.price = t.price := by
  intro fuel
  induction fuel with
  | zero =>
    intro buys sells b2 s2 ts h
    rw [matchLoop_zero] at h
    simp only [Except.ok.injEq, Prod.mk.injEq] at h
    rw [← h.2.2]
    simp
  | succ n ih =>
    intro buys sells b2 s2 ts h
    rcases matchLoop_succ_inv tk n buys sells b2 s2 ts h with
      ⟨hstep, rfl, rfl, rfl⟩ | ⟨b', s', t, tts, hstep, hrec, rfl⟩
    · simp
    · intro u hu
      obtain ⟨hfirst, hmap⟩ := matchStep_some_sell_source tk buys sells b' s' t hstep
      rcases List.mem_cons.1 hu with rfl | hutts
      · exact hfirst
      · obtain ⟨o, ho, hoid, hoprice⟩ := ih b' s' b2 s2 tts hrec u hutts
        obtain ⟨o2, ho2, h2id, h2price⟩ := hmap o ho
        exact ⟨o2, ho2, by rw [h2id, hoid], by rw [h2price, hoprice]⟩

theorem matchStep_some_sorted (tk : Nat) (buys sells b' s' : List Order) (t : Trade)
    (hb : qSorted true buys) (hs : qSorted false sells)
    (h : matchStep tk buys sells = .ok (some (b', s', t))) :
    qSorted true b' ∧ qSorted false s' := by
  obtain ⟨bb, bt, bs, st, rfl, rfl, hge, hstep⟩ :=
    matchStep_some_inv tk buys sells b' s' t h
  have hso := stepResult_sorted tk bb bs bt st hb hs
  rw [hstep] at hso
  exact hso

theorem matchLoop_sorted (tk : Nat) :
    ∀ (fuel : Nat) (buys sells b2 s2 : List Order) (ts : List Trade),
      qSorted true buys → qSorted false sells →
      matchLoop tk fuel buys sells = .ok (b2, s2, ts) →
      qSorted true b2 ∧ qSorted false s2 := by
  intro fuel
  induction fuel with
  | zero =>
    intro buys sells b2 s2 ts hb hs h
    rw [matchLoop_zero] at h
    simp only [Except.ok.injEq, Prod.mk.injEq] at h
    rw [← h.1, ← h.2.1]
    exact ⟨hb, hs⟩
  | succ n ih =>
    intro buys sells b2 s2 ts hb hs h
    rcases matchLoop_succ_inv tk n buys sells b2 s2 ts h with
      ⟨hstep, rfl, rfl, rfl⟩ | ⟨b', s', t, tts, hstep, hrec, rfl⟩
    · exact ⟨hb, hs⟩
    · obtain ⟨hb', hs'⟩ := matchStep_some_sorted tk buys sells b' s' t hb hs hstep
      exact ih b' s' b2 s2 tts hb' hs' hrec

theorem matchStep_some_ticker (tk : Nat) (buys sells b' s' : List Order) (t : Trade)
    (h : matchStep tk buys sells = .ok (some (b', s', t))) : t.ticker = tk := by
  obtain ⟨bb, bt, bs, st, rfl, rfl, hge, hstep⟩ :=
    matchStep_some_inv tk buys sells b' s' t h
  have ht : t = ⟨tk, min bb.quantity bs.quantity, bs.price, bb.order_id, bs.order_id⟩ := by
    have h0 := stepResult_trade tk bb bs bt st
    rw [hstep] at h0
    exact h0
  rw [ht]

theorem matchLoop_ticker (tk : Nat) :
    ∀ (fuel : Nat) (buys sells b2 s2 : List Order) (ts : List Trade),
      matchLoop tk fuel buys sells = .ok (b2, s2, ts) →
      ∀ t ∈ ts, t.ticker = tk := by
  intro fuel
  induction fuel with
  | zero =>
    intro buys sells b2 s2 ts h
    rw [matchLoop_zero] at h
    simp only [Except.ok.injEq, Prod.mk.injEq] at h
    rw [← h.2.2]
    simp
  | succ n ih =>
    intro buys sells b2 s2 ts h
    rcases matchLoop_succ_inv tk n buys sells b2 s2 ts h with
      ⟨hstep, rfl, rfl, rfl⟩ | ⟨b', s', t, tts, hstep, hrec, rfl⟩
    · simp
    · intro u hu
      rcases List.mem_cons.1 hu with rfl | hutts
      · exact matchStep_some_ticker tk buys sells b' s' u hstep
      · exact ih b' s' b2 s2 tts hrec u hutts

/-! ### Lemmas about `match_order` and `add_order` -/

theorem setQ_same (f : Nat → List Order) (i : Nat) (v : List Order) : setQ f i v i = v := by
  simp [setQ]

theorem setQ_other (f : Nat → List Order) (i j : Nat) (v : List Order) (h : j ≠ i) :
    setQ f i v j = f j := by
  simp [setQ, h]

theorem match_order_spec (bk : OrderBook) (tk : Nat) (bk' : OrderBook) (ts : List Trade)
    (h : bk.match_order tk = .ok (bk', ts)) :
    ∃ b2 s2, matchLoop tk
        ((bk.buy_orders (tk % max_tickers)).length +
          (bk.sell_orders (tk % max_tickers)).length)
        (bk.buy_orders (tk % max_tickers)) (bk.sell_orders (tk % max_tickers))
        = .ok (b2, s2, ts) ∧
      bk'.buy_orders = setQ bk.buy_orders (tk % max_tickers) b2 ∧
      bk'.sell_orders = setQ bk.sell_orders (tk % max_tickers) s2 ∧
      bk'.order_id_counter = bk.order_id_counter := by
  simp only [OrderBook.match_order] at h
  obtain ⟨⟨b2, s2, tts⟩, h2⟩ := matchLoop_ok tk
    ((bk.buy_orders (tk % max_tickers)).length + (bk.sell_orders (tk % max_tickers)).length)
    (bk.buy_orders (tk % max_tickers)) (bk.sell_orders (tk % max_tickers))
  rw [h2] at h
  simp only [Except.ok.injEq, Prod.mk.injEq] at h
  refine ⟨b2, s2, ?_, ?_, ?_, ?_⟩
  · rw [← h.2]
    exact h2
  · rw [← h.1]
  · rw [← h.1]
  · rw [← h.1]

theorem insert_order_buy (bk : OrderBook) (ty : String) (tk : Nat) (q : Int) (p : ℚ)
    (h : ty = "Buy") :
    (bk.insert_order ty tk q p).buy_orders = setQ bk.buy_orders (tk % max_tickers)
      (PriorityQueue.insert true ⟨ty, tk, q, p, bk.order_id_counter⟩
        (bk.buy_orders (tk % max_tickers))) ∧
    (bk.insert_order ty tk q p).sell_orders = bk.sell_orders ∧
    (bk.insert_order ty tk q p).order_id_counter = bk.order_id_counter + 1 := by
  simp [OrderBook.insert_order, h]

theorem insert_order_sell (bk : OrderBook) (ty : String) (tk : Nat) (q : Int) (p : ℚ)
    (h : ¬ ty = "Buy") :
    (bk.insert_order ty tk q p).sell_orders = setQ bk.sell_orders (tk % max_tickers)
      (PriorityQueue.insert false ⟨ty, tk, q, p, bk.order_id_counter⟩
        (bk.sell_orders (tk % max_tickers))) ∧
    (bk.insert_order ty tk q p).buy_orders = bk.buy_orders ∧
    (bk.insert_order ty tk q p).order_id_counter = bk.order_id_counter + 1 := by
  simp [OrderBook.insert_order, h]

theorem insert_order_frame (bk : OrderBook) (ty : String) (tk : Nat) (q : Int) (p : ℚ)
    (j : Nat) (hj : j ≠ tk % max_tickers) :
    (bk.insert_order ty tk q p).buy_orders j = bk.buy_orders j ∧
    (bk.insert_order ty tk q p).sell_orders j = bk.sell_orders j := by
  by_cases hty : ty = "Buy"
  · obtain ⟨hb, hs, _⟩ := insert_order_buy bk ty tk q p hty
    rw [hb, hs, setQ_other _ _ _ _ hj]
    exact ⟨rfl, rfl⟩
  · obtain ⟨hs, hb, _⟩ := insert_order_sell bk ty tk q p hty
    rw [hb, hs, setQ_other _ _ _ _ hj]
    exact ⟨rfl, rfl⟩

theorem insert_order_sorted (bk : OrderBook) (ty : String) (tk : Nat) (q : Int) (p : ℚ)
    (hinv : BookInv bk) (i : Nat) :
    qSorted true ((bk.insert_order ty tk q p).buy_orders i) ∧
      qSorted false ((bk.insert_order ty tk q p).sell_orders i) := by
  by_cases hty : ty = "Buy"
  · obtain ⟨hb, hs, _⟩ := insert_order_buy bk ty tk q p hty
    rw [hb, hs]
    by_cases hij : i = tk % max_tickers
    · subst hij
      rw [setQ_same]
      exact ⟨insert_pairwise true _ _ (hinv (tk % max_tickers)).1,
        (hinv (tk % max_tickers)).2.1⟩
    · rw [setQ_other _ _ _ _ hij]
      exact ⟨(hinv i).1, (hinv i).2.1⟩
  · obtain ⟨hs, hb, _⟩ := insert_order_sell bk ty tk q p hty
    rw [hb, hs]
    by_cases hij : i = tk % max_tickers
    · subst hij
      rw [setQ_same]
      exact ⟨(hinv (tk % max_tickers)).1,
        insert_pairwise false _ _ (hinv (tk % max_tickers)).2.1⟩
    · rw [setQ_other _ _ _ _ hij]
      exact ⟨(hinv i).1, (hinv i).2.1⟩

theorem add_order_ok (bk : OrderBook) (ty : String) (tk : Nat) (q : Int) (p : ℚ) :
    ∃ r, OrderBook.add_order bk ty tk q p = .ok r := by
  show ∃ r, (bk.insert_order ty tk q p).match_order tk = .ok r
  simp only [OrderBook.match_order]
  obtain ⟨⟨b2, s2, ts⟩, h2⟩ := matchLoop_ok tk _
    ((bk.insert_order ty tk q p).buy_orders (tk % max_tickers))
    ((bk.insert_order ty tk q p).sell_orders (tk % max_tickers))
  rw [h2]
  exact ⟨_, rfl⟩

theorem add_order_frame (bk : OrderBook) (ty : String) (tk : Nat) (q : Int) (p : ℚ)
    (bk' : OrderBook) (ts : List Trade) (j : Nat) (hj : j ≠ tk % max_tickers)
    (h : OrderBook.add_order bk ty tk q p = .ok (bk', ts)) :
    bk'.buy_orders j = bk.buy_orders j ∧ bk'.sell_orders j = bk.sell_orders j := by
  obtain ⟨b2, s2, hloop, hb, hs, hc⟩ :=
    match_order_spec (bk.insert_order ty tk q p) tk bk' ts h
  obtain ⟨hfb, hfs⟩ := insert_order_frame bk ty tk q p j hj
  constructor
  · rw [hb, setQ_other _ _ _ _ hj, hfb]
  · rw [hs, setQ_other _ _ _ _ hj, hfs]

theorem sorted_head_max_price (bb : Order) (bt : List Order) (h : qSorted true (bb :: bt)) :
    ∀ x ∈ bb :: bt, x.price ≤ bb.price := by
  intro x hx
  have hk := sorted_head_min true bb bt h x hx
  simp only [pkey, if_true] at hk
  linarith

theorem sorted_head_low_price (bs : Order) (st : List Order) (h : qSorted false (bs :: st)) :
    ∀ y ∈ bs :: st, bs.price ≤ y.price := by
  intro y hy
  have hk := sorted_head_min false bs st h y hy
  simpa [pkey] using hk

theorem start_inv : BookInv OrderBook.start := by
  intro i
  refine ⟨?_, ?_, ?_⟩ <;> simp [OrderBook.start, qSorted]

theorem add_order_inv (bk : OrderBook) (ty : String) (tk : Nat) (q : Int) (p : ℚ)
    (bk' : OrderBook) (ts : List Trade) (hinv : BookInv bk)
    (h : OrderBook.add_order bk ty tk q p = .ok (bk', ts)) : BookInv bk' := by
  obtain ⟨b2, s2, hloop, hb, hs, hc⟩ :=
    match_order_spec (bk.insert_order ty tk q p) tk bk' ts h
  have hins := insert_order_sorted bk ty tk q p hinv
  have hsorted2 := matchLoop_sorted tk _ _ _ b2 s2 ts
    (hins (tk % max_tickers)).1 (hins (tk % max_tickers)).2 hloop
  intro i
  by_cases hij : i = tk % max_tickers
  · subst hij
    rw [hb, hs, setQ_same, setQ_same]
    refine ⟨hsorted2.1, hsorted2.2, ?_⟩
    have hterm := matchLoop_reaches_terminal tk _ _ _ b2 s2 ts (le_refl _) hloop
    intro x hx y hy
    cases b2 with
    | nil => simp at hx
    | cons bb bt =>
      cases s2 with
      | nil => simp at hy
      | cons bs st =>
        have hcross := matchStep_none_not_crossed tk bb bs bt st hterm
        have hxle := sorted_head_max_price bb bt hsorted2.1 x hx
        have hyge := sorted_head_low_price bs st hsorted2.2 y hy
        linarith
  · rw [hb, hs, setQ_other _ _ _ _ hij, setQ_other _ _ _ _ hij]
    obtain ⟨hfb, hfs⟩ := insert_order_frame bk ty tk q p i hij
    rw [hfb, hfs]
    exact hinv i

/-! ### Conservation and script lemmas -/

theorem insert_order_sums (bk : OrderBook) (ty : String) (tk : Nat) (q : Int) (p : ℚ) :
    sumQty ((bk.insert_order ty tk q p).buy_orders (tk % max_tickers)) =
      sumQty (bk.buy_orders (tk % max_tickers)) + (if ty = "Buy" then q else 0) ∧
    sumQty ((bk.insert_order ty tk q p).sell_orders (tk % max_tickers)) =
      sumQty (bk.sell_orders (tk % max_tickers)) + (if ty = "Buy" then 0 else q) := by
  by_cases hty : ty = "Buy"
  · obtain ⟨hbq, hsq, _⟩ := insert_order_buy bk ty tk q p hty
    rw [hbq, hsq, setQ_same, insert_sumQty]
    constructor
    · simp only [hty, if_true]
      ring
    · simp [hty]
  · obtain ⟨hsq, hbq, _⟩ := insert_order_sell bk ty tk q p hty
    rw [hbq, hsq, setQ_same, insert_sumQty]
    constructor
    · simp [hty]
    · simp only [hty, if_false]
      ring

theorem tradedAt_all (i : Nat) (ts : List Trade)
    (h : ∀ t ∈ ts, t.ticker % max_tickers = i) : tradedAt i ts = sumTrades ts := by
  induction ts with
  | nil => rfl
  | cons t ts ih =>
    rw [tradedAt, sumTrades, if_pos (h t (List.mem_cons_self _ _)),
      ih (fun u hu => h u (List.mem_cons_of_mem _ hu))]

theorem tradedAt_none (i : Nat) (ts : List Trade)
    (h : ∀ t ∈ ts, ¬ t.ticker % max_tickers = i) : tradedAt i ts = 0 := by
  induction ts with
  | nil => rfl
  | cons t ts ih =>
    rw [tradedAt, if_neg (h t (List.mem_cons_self _ _)),
      ih (fun u hu => h u (List.mem_cons_of_mem _ hu))]
    ring

theorem tradedAt_append (i : Nat) (ts1 ts2 : List Trade) :
    tradedAt i (ts1 ++ ts2) = tradedAt i ts1 + tradedAt i ts2 := by
  induction ts1 with
  | nil => simp [tradedAt]
  | cons t ts ih =>
    rw [List.cons_append, tradedAt, tradedAt, ih]
    ring

theorem add_order_conserve (bk : OrderBook) (ty : String) (tk : Nat) (q : Int) (p : ℚ)
    (bk' : OrderBook) (ts : List Trade) (i : Nat)
    (h : OrderBook.add_order bk ty tk q p = .ok (bk', ts)) :
    sumQty (bk'.buy_orders i) + tradedAt i ts =
      sumQty (bk.buy_orders i) + (if ty = "Buy" ∧ tk % max_tickers = i then q else 0) ∧
    sumQty (bk'.sell_orders i) + tradedAt i ts =
      sumQty (bk.sell_orders i) + (if ¬ty = "Buy" ∧ tk % max_tickers = i then q else 0) := by
  obtain ⟨b2, s2, hloop, hb, hs, hc⟩ :=
    match_order_spec (bk.insert_order ty tk q p) tk bk' ts h
  have hticker := matchLoop_ticker tk _ _ _ b2 s2 ts hloop
  have hsums := matchLoop_sums tk _ _ _ b2 s2 ts hloop
  obtain ⟨hq1, hq2⟩ := insert_order_sums bk ty tk q p
  by_cases hii : tk % max_tickers = i
  · have htr : tradedAt i ts = sumTrades ts :=
      tradedAt_all i ts (fun t ht => by rw [hticker t ht, hii])
    rw [← hii] at htr
    rw [hb, hs, ← hii, setQ_same, setQ_same, htr]
    constructor
    · rw [hsums.1, hq1]
      by_cases hty : ty = "Buy" <;> simp [hty]
    · rw [hsums.2, hq2]
      by_cases hty : ty = "Buy" <;> simp [hty]
  · have htr : tradedAt i ts = 0 :=
      tradedAt_none i ts (fun t ht => by rw [hticker t ht]; exact hii)
    obtain ⟨hfb, hfs⟩ := insert_order_frame bk ty tk q p i (Ne.symm hii)
    rw [hb, hs, setQ_other _ _ _ _ (Ne.symm hii), setQ_other _ _ _ _ (Ne.symm hii),
      hfb, hfs, htr]
    constructor <;> simp [hii]

theorem runScriptAux_nil (bk : OrderBook) : runScriptAux bk [] = .ok (bk, []) := rfl

theorem runScriptAux_cons (bk : OrderBook) (sub : Submission) (rest : List Submission)
    (bk1 : OrderBook) (ts1 : List Trade)
    (h : bk.add_order sub.order_type sub.ticker sub.quantity sub.price = .ok (bk1, ts1)) :
    runScriptAux bk (sub :: rest) =
      match runScriptAux bk1 rest with
      | .error e => .error e
      | .ok (bk2, ts2) => .ok (bk2, ts1 ++ ts2) := by
  rw [runScriptAux, h]

theorem runScriptAux_ok : ∀ (subs : List Submission) (bk : OrderBook),
    ∃ r, runScriptAux bk subs = .ok r := by
  intro subs
  induction subs with
  | nil => intro bk; exact ⟨(bk, []), rfl⟩
  | cons sub rest ih =>
    intro bk
    obtain ⟨⟨bk1, ts1⟩, h1⟩ :=
      add_order_ok bk sub.order_type sub.ticker sub.quantity sub.price
    obtain ⟨⟨bk2, ts2⟩, h2⟩ := ih bk1
    exact ⟨(bk2, ts1 ++ ts2), by rw [runScriptAux_cons bk sub rest bk1 ts1 h1, h2]⟩

theorem runScriptAux_cons_inv (bk : OrderBook) (sub : Submission) (rest : List Submission)
    (bk2 : OrderBook) (ts : List Trade)
    (h : runScriptAux bk (sub :: rest) = .ok (bk2, ts)) :
    ∃ bk1 ts1 ts2,
      bk.add_order sub.order_type sub.ticker sub.quantity sub.price = .ok (bk1, ts1) ∧
      runScriptAux bk1 rest = .ok (bk2, ts2) ∧ ts = ts1 ++ ts2 := by
  obtain ⟨⟨bk1, ts1⟩, h1⟩ :=
    add_order_ok bk sub.order_type sub.ticker sub.quantity sub.price
  obtain ⟨⟨bk2', ts2⟩, h2⟩ := runScriptAux_ok rest bk1
  rw [runScriptAux_cons bk sub rest bk1 ts1 h1, h2] at h
  simp only [Except.ok.injEq, Prod.mk.injEq] at h
  exact ⟨bk1, ts1, ts2, h1, by rw [h2, h.1], h.2.symm⟩

theorem runScriptAux_inv_pres :
    ∀ (subs : List Submission) (bk bk' : OrderBook) (ts : List Trade),
      BookInv bk → runScriptAux bk subs = .ok (bk', ts) → BookInv bk' := by
  intro subs
  induction subs with
  | nil =>
    intro bk bk' ts hinv h
    rw [runScriptAux_nil] at h
    simp only [Except.ok.injEq, Prod.mk.injEq] at h
    rw [← h.1]
    exact hinv
  | cons sub rest ih =>
    intro bk bk' ts hinv h
    obtain ⟨bk1, ts1, ts2, h1, h2, rfl⟩ := runScriptAux_cons_inv bk sub rest bk' ts h
    exact ih bk1 bk' ts2 (add_order_inv bk _ _ _ _ bk1 ts1 hinv h1) h2

theorem runScriptAux_conserve :
    ∀ (subs : List Submission) (bk bk' : OrderBook) (ts : List Trade),
      runScriptAux bk subs = .ok (bk', ts) → ∀ i,
        sumQty (bk'.buy_orders i) + tradedAt i ts =
          sumQty (bk.buy_orders i) + submittedBuys i subs ∧
        sumQty (bk'.sell_orders i) + tradedAt i ts =
          sumQty (bk.sell_orders i) + submittedSells i subs := by
  intro subs
  induction subs with
  | nil =>
    intro bk bk' ts h i
    rw [runScriptAux_nil] at h
    simp only [Except.ok.injEq, Prod.mk.injEq] at h
    rw [← h.1, ← h.2]
    simp [tradedAt, submittedBuys, submittedSells]
  | cons sub rest ih =>
    intro bk bk' ts h i
    obtain ⟨bk1, ts1, ts2, h1, h2, rfl⟩ := runScriptAux_cons_inv bk sub rest bk' ts h
    obtain ⟨hb1, hs1⟩ := add_order_conserve bk _ _ _ _ bk1 ts1 i h1
    obtain ⟨hb2, hs2⟩ := ih bk1 bk' ts2 h2 i
    rw [tradedAt_append]
    constructor
    · rw [submittedBuys]
      linarith
    · rw [submittedSells]
      linarith

theorem runScript_book_inv (subs : List Submission) : BookInv (booksOf (runScript subs)) := by
  obtain ⟨⟨bk, ts⟩, h⟩ := runScriptAux_ok subs OrderBook.start
  have hbk : booksOf (runScript subs) = bk := by
    rw [runScript, h]
    rfl
  rw [hbk]
  exact runScriptAux_inv_pres subs OrderBook.start bk ts start_inv h

/-! ### Claim C1 -/

/-- Claim C1, counterexample: submitting Buy 10@100 on ticker 5 and then
Sell 10@90 leaves the buy order (id 0, price 100) as the resting/passive side,
yet the emitted trade prints price 90 — the incoming sell's price — not the
passive order's price 100.  So trades do not execute at the passive order's
price. -/
theorem C1_cex_trade_price_not_passive :
    (booksOf (runScript [⟨"Buy", 5, 10, 100⟩])).buy_orders 5 =
      [⟨"Buy", 5, 10, 100, 0⟩] ∧
    tradesOf (runScript [⟨"Buy", 5, 10, 100⟩, ⟨"Sell", 5, 10, 90⟩]) =
      [⟨5, 10, 90, 0, 1⟩] ∧
    (90 : ℚ) ≠ 100 := by
  refine ⟨?_, ?_, by norm_num⟩ <;> rfl

/-- Claim C1 (amended): every trade emitted during a matching pass carries the
price (and id) of the matched sell order — an order that was in the sell queue
when the pass started — regardless of which side of the pair was the resting
one. -/
theorem C1_trade_price_from_sell_order (tk : Nat) (buys sells : List Order) (t : Trade)
    (ht : t ∈ (matchRun tk buys sells).2.2) :
    ∃ o ∈ sells, o.order_id = t.sell_order_id ∧ o.price = t.price := by
  obtain ⟨⟨b2, s2, ts⟩, h⟩ := matchLoop_ok tk (buys.length + sells.length) buys sells
  have hmr : matchRun tk buys sells = (b2, s2, ts) := by
    unfold matchRun
    rw [h]
  rw [hmr] at ht
  exact matchLoop_sell_source tk _ buys sells b2 s2 ts h t ht

/-- Witness for the amended C1 on a concrete crossed pair. -/
theorem C1_witness :
    ∃ o ∈ [(⟨"Sell", 5, 10, 90, 1⟩ : Order)],
      o.order_id = (⟨5, 10, 90, 0, 1⟩ : Trade).sell_order_id ∧
      o.price = (⟨5, 10, 90, 0, 1⟩ : Trade).price :=
  C1_trade_price_from_sell_order 5 [⟨"Buy", 5, 10, 100, 0⟩] [⟨"Sell", 5, 10, 90, 1⟩]
    ⟨5, 10, 90, 0, 1⟩ (by decide)

/-! ### Claim C2 -/

/-- Claim C2: after any sequence of submissions through `add_order`, run
sequentially from a fresh book, no slot is crossed: every resting buy price is
strictly below every resting sell price of the same slot (in particular, when
both queues are non-empty, the best resting bid is strictly below the best
resting ask). -/
theorem C2_book_never_crossed (subs : List Submission) (i : Nat) (x y : Order)
    (hx : x ∈ (booksOf (runScript subs)).buy_orders i)
    (hy : y ∈ (booksOf (runScript subs)).sell_orders i) :
    x.price < y.price :=
  (runScript_book_inv subs i).2.2 x hx y hy

/-- Witness for C2 on a concrete two-sided book. -/
theorem C2_witness :
    (⟨"Buy", 0, 5, 10, 0⟩ : Order).price < (⟨"Sell", 0, 5, 20, 1⟩ : Order).price :=
  C2_book_never_crossed [⟨"Buy", 0, 5, 10⟩, ⟨"Sell", 0, 5, 20⟩] 0
    ⟨"Buy", 0, 5, 10, 0⟩ ⟨"Sell", 0, 5, 20, 1⟩ (by decide) (by decide)

/-! ### Claim C3 -/

/-- Claim C3, counterexample: Buy 10@100 then Sell 10@90 on ticker 5 fully
cross; afterwards nothing rests and one trade of quantity 10 was emitted, so
resting-quantities plus traded-quantities total 10, while 20 was submitted in
all: the claimed equation (counting each trade once against both sides
together) fails whenever any trade occurs. -/
theorem C3_cex_conservation_as_stated_fails :
    sumQty ((booksOf (runScript [⟨"Buy", 5, 10, 100⟩, ⟨"Sell", 5, 10, 90⟩])).buy_orders 5) +
      sumQty ((booksOf (runScript [⟨"Buy", 5, 10, 100⟩, ⟨"Sell", 5, 10, 90⟩])).sell_orders 5) +
      sumTrades (tradesOf (runScript [⟨"Buy", 5, 10, 100⟩, ⟨"Sell", 5, 10, 90⟩])) = 10 ∧
    submittedBuys 5 [⟨"Buy", 5, 10, 100⟩, ⟨"Sell", 5, 10, 90⟩] +
      submittedSells 5 [⟨"Buy", 5, 10, 100⟩, ⟨"Sell", 5, 10, 90⟩] = 20 ∧
    (10 : Int) ≠ 20 := by
  refine ⟨?_, ?_, by norm_num⟩ <;> rfl

/-- Claim C3 (amended): every trade's quantity is the minimum of the pre-trade
remaining quantities of the two matched (best) orders, and conservation holds
per side: for each slot, the quantity resting on the buy side plus all traded
quantity attributed to that slot equals the total submitted buy quantity for
that slot, and likewise for the sell side. -/
theorem C3_trade_min_and_per_side_conservation :
    (∀ (tk : Nat) (buys sells b' s' : List Order) (t : Trade),
        matchStep tk buys sells = .ok (some (b', s', t)) →
        ∃ bb bt bs st, buys = bb :: bt ∧ sells = bs :: st ∧
          t.quantity = min bb.quantity bs.quantity) ∧
    (∀ (subs : List Submission) (i : Nat),
        sumQty ((booksOf (runScript subs)).buy_orders i) +
          tradedAt i (tradesOf (runScript subs)) = submittedBuys i subs ∧
        sumQty ((booksOf (runScript subs)).sell_orders i) +
          tradedAt i (tradesOf (runScript subs)) = submittedSells i subs) := by
  constructor
  · intro tk buys sells b' s' t h
    obtain ⟨bb, bt, bs, st, rfl, rfl, hge, hstep⟩ :=
      matchStep_some_inv tk buys sells b' s' t h
    have ht : t = ⟨tk, min bb.quantity bs.quantity, bs.price, bb.order_id, bs.order_id⟩ := by
      have h0 := stepResult_trade tk bb bs bt st
      rw [hstep] at h0
      exact h0
    exact ⟨bb, bt, bs, st, rfl, rfl, by rw [ht]⟩
  · intro subs i
    obtain ⟨⟨bk, ts⟩, h⟩ := runScriptAux_ok subs OrderBook.start
    have hbk : booksOf (runScript subs) = bk := by
      rw [runScript, h]
      rfl
    have hts : tradesOf (runScript subs) = ts := by
      rw [runScript, h]
      rfl
    rw [hbk, hts]
    have hc := runScriptAux_conserve subs OrderBook.start bk ts h i
    simpa [OrderBook.start, sumQty] using hc

/-- Witness for the amended C3 on a concrete matching step. -/
theorem C3_witness :
    ∃ bb bt bs st, [(⟨"Buy", 0, 5, 10, 0⟩ : Order)] = bb :: bt ∧
      [(⟨"Sell", 0, 5, 9, 1⟩ : Order)] = bs :: st ∧
      (⟨0, 5, 9, 0, 1⟩ : Trade).quantity = min bb.quantity bs.quantity :=
  C3_trade_min_and_per_side_conservation.1 0 [⟨"Buy", 0, 5, 10, 0⟩]
    [⟨"Sell", 0, 5, 9, 1⟩] [] [] ⟨0, 5, 9, 0, 1⟩ rfl

/-! ### Claim C4 -/

/-- Claim C4: for any sequence of insertions into an initially empty
`PriorityQueue`, `peek` on a bid (max-heap) queue returns an order of the
numerically highest price present, and `peek` on an ask (min-heap) queue
returns an order of the lowest price present. -/
theorem C4_peek_returns_best_price :
    (∀ (orders : List Order) (o : Order),
        PriorityQueue.peek (buildQ true orders) = some o →
        ∀ x ∈ buildQ true orders, x.price ≤ o.price) ∧
    (∀ (orders : List Order) (o : Order),
        PriorityQueue.peek (buildQ false orders) = some o →
        ∀ x ∈ buildQ false orders, o.price ≤ x.price) := by
  constructor
  · intro orders o hpeek x hx
    have hsort := buildQ_sorted true orders
    cases hq : buildQ true orders with
    | nil =>
      rw [hq] at hpeek
      exact absurd hpeek (by simp [PriorityQueue.peek])
    | cons h t =>
      rw [hq] at hpeek hx
      rw [hq] at hsort
      have hho : h = o := by simpa [PriorityQueue.peek] using hpeek
      rw [← hho]
      exact sorted_head_max_price h t hsort x hx
  · intro orders o hpeek x hx
    have hsort := buildQ_sorted false orders
    cases hq : buildQ false orders with
    | nil =>
      rw [hq] at hpeek
      exact absurd hpeek (by simp [PriorityQueue.peek])
    | cons h t =>
      rw [hq] at hpeek hx
      rw [hq] at hsort
      have hho : h = o := by simpa [PriorityQueue.peek] using hpeek
      rw [← hho]
      exact sorted_head_low_price h t hsort x hx

/-- Witness for C4 on concrete three-order insertion sequences. -/
theorem C4_witness :
    (⟨"Buy", 0, 1, 20, 2⟩ : Order).price ≤ (⟨"Buy", 0, 1, 30, 1⟩ : Order).price ∧
    (⟨"Sell", 0, 1, 10, 0⟩ : Order).price ≤ (⟨"Sell", 0, 1, 20, 2⟩ : Order).price :=
  ⟨C4_peek_returns_best_price.1
      [⟨"Buy", 0, 1, 10, 0⟩, ⟨"Buy", 0, 1, 30, 1⟩, ⟨"Buy", 0, 1, 20, 2⟩]
      ⟨"Buy", 0, 1, 30, 1⟩ (by decide) ⟨"Buy", 0, 1, 20, 2⟩ (by decide),
    C4_peek_returns_best_price.2
      [⟨"Sell", 0, 1, 10, 0⟩, ⟨"Sell", 0, 1, 30, 1⟩, ⟨"Sell", 0, 1, 20, 2⟩]
      ⟨"Sell", 0, 1, 10, 0⟩ (by decide) ⟨"Sell", 0, 1, 20, 2⟩ (by decide)⟩

/-! ### Claim C5 -/

/-- Claim C5, counterexample: insert Buy@60 (id 0), then Buy@50 (id 1), then
Buy@50 (id 2) into an empty bid queue.  The queue lines up as
[60 (id 0), 50 (id 2), 50 (id 1)]: after the 60 order is popped, peek/pop
returns the id 2 order although the id 1 order has equal price and was
submitted earlier — equal-price ties are not resolved oldest-first. -/
theorem C5_cex_ties_not_oldest_first :
    buildQ true [⟨"Buy", 0, 1, 60, 0⟩, ⟨"Buy", 0, 1, 50, 1⟩, ⟨"Buy", 0, 1, 50, 2⟩] =
      [⟨"Buy", 0, 1, 60, 0⟩, ⟨"Buy", 0, 1, 50, 2⟩, ⟨"Buy", 0, 1, 50, 1⟩] ∧
    PriorityQueue.pop
        [(⟨"Buy", 0, 1, 60, 0⟩ : Order), ⟨"Buy", 0, 1, 50, 2⟩, ⟨"Buy", 0, 1, 50, 1⟩] =
      .ok (⟨"Buy", 0, 1, 60, 0⟩, [⟨"Buy", 0, 1, 50, 2⟩, ⟨"Buy", 0, 1, 50, 1⟩]) ∧
    PriorityQueue.peek [(⟨"Buy", 0, 1, 50, 2⟩ : Order), ⟨"Buy", 0, 1, 50, 1⟩] =
      some ⟨"Buy", 0, 1, 50, 2⟩ ∧
    (⟨"Buy", 0, 1, 50, 1⟩ : Order).price = (⟨"Buy", 0, 1, 50, 2⟩ : Order).price ∧
    (⟨"Buy", 0, 1, 50, 1⟩ : Order).order_id < (⟨"Buy", 0, 1, 50, 2⟩ : Order).order_id := by
  refine ⟨?_, ?_, ?_, ?_, ?_⟩ <;> first | rfl | decide

/-- Claim C5 (amended): equal-price orders inserted behind a strictly
better-priced head come out newest-first, not oldest-first: if `a` and then
`b` are inserted with equal prices into a queue whose head strictly outranks
them, `b` ends up in front of `a` (so `b` is popped first). -/
theorem C5_equal_price_ties_are_lifo (m : Bool) (h : Order) (t : List Order) (a b : Order)
    (hha : pkey m h < pkey m a) (hab : a.price = b.price) :
    [b, a].Sublist (PriorityQueue.insert m b (PriorityQueue.insert m a (h :: t))) := by
  have hkey : pkey m a = pkey m b := by
    cases m <;> simp [pkey, hab]
  have hloop : ∀ (l : List Order),
      [b, a].Sublist (PriorityQueue.insertLoop m b (PriorityQueue.insertLoop m a l)) := by
    intro l
    induction l with
    | nil =>
      rw [PriorityQueue.insertLoop, PriorityQueue.insertLoop, insert_cond_eq]
      rw [decide_eq_false (by rw [hkey]; exact lt_irrefl _)]
      simp
    | cons x xs ih =>
      rw [PriorityQueue.insertLoop, insert_cond_eq]
      by_cases hxa : pkey m x < pkey m a
      · rw [decide_eq_true hxa]
        simp only [if_true]
        rw [PriorityQueue.insertLoop, insert_cond_eq,
          decide_eq_true (by rw [← hkey]; exact hxa)]
        simp only [if_true]
        exact List.Sublist.cons x ih
      · rw [decide_eq_false hxa]
        simp only [Bool.false_eq_true, if_false]
        rw [PriorityQueue.insertLoop, insert_cond_eq,
          decide_eq_false (by rw [← hkey]; exact fun hc => absurd hc (lt_irrefl _))]
        simp only [Bool.false_eq_true, if_false]
        exact (List.Sublist.cons₂ b (List.Sublist.cons₂ a (List.nil_sublist _)))
  have hins_a : PriorityQueue.insert m a (h :: t) =
      h :: PriorityQueue.insertLoop m a t := by
    rw [PriorityQueue.insert, insert_cond_eq,
      decide_eq_false (not_lt_of_gt hha)]
    simp
  rw [hins_a, PriorityQueue.insert, insert_cond_eq,
    decide_eq_false (not_lt_of_gt (by rw [← hkey]; exact hha))]
  simp only [Bool.false_eq_true, if_false]
  exact List.Sublist.cons h (hloop t)

/-- Witness for the amended C5 on the counterexample's orders. -/
theorem C5_witness :
    [(⟨"Buy", 0, 1, 50, 2⟩ : Order), ⟨"Buy", 0, 1, 50, 1⟩].Sublist
      (PriorityQueue.insert true ⟨"Buy", 0, 1, 50, 2⟩
        (PriorityQueue.insert true ⟨"Buy", 0, 1, 50, 1⟩ [⟨"Buy", 0, 1, 60, 0⟩])) :=
  C5_equal_price_ties_are_lifo true ⟨"Buy", 0, 1, 60, 0⟩ []
    ⟨"Buy", 0, 1, 50, 1⟩ ⟨"Buy", 0, 1, 50, 2⟩ (by decide) (by decide)

/-! ### Claim C6 -/

/-- Claim C6, counterexample: with one buy of quantity 3 at 10 resting against
two sells of quantity 1 at 9, the matching pass executes two trades —
two iterations that each pop the buy, trade one share, and reinsert the buy —
so the iteration count (2) exceeds the number of orders on the shallower side
at call time (min 1 2 = 1). -/
theorem C6_cex_iterations_exceed_shallower_side :
    (matchRun 0 [⟨"Buy", 0, 3, 10, 2⟩]
        [⟨"Sell", 0, 1, 9, 0⟩, ⟨"Sell", 0, 1, 9, 1⟩]).2.2.length = 2 ∧
    ¬ (matchRun 0 [⟨"Buy", 0, 3, 10, 2⟩]
        [⟨"Sell", 0, 1, 9, 0⟩, ⟨"Sell", 0, 1, 9, 1⟩]).2.2.length ≤
      min [(⟨"Buy", 0, 3, 10, 2⟩ : Order)].length
        [(⟨"Sell", 0, 1, 9, 0⟩ : Order), ⟨"Sell", 0, 1, 9, 1⟩].length := by
  constructor
  · rfl
  · decide

/-- Claim C6 (amended): the matching loop always terminates — running it with
fuel equal to the total number of resting orders reaches a state in which the
loop condition fails — and its iteration count (one emitted trade per
iteration) is bounded by the total number of orders resting on both sides at
call time, because each iteration permanently removes at least one queue
entry. -/
theorem C6_loop_terminates_total_bound (tk : Nat) (buys sells : List Order) :
    (matchRun tk buys sells).2.2.length ≤ buys.length + sells.length ∧
    matchStep tk (matchRun tk buys sells).1 (matchRun tk buys sells).2.1 = .ok none := by
  obtain ⟨⟨b2, s2, ts⟩, h⟩ := matchLoop_ok tk (buys.length + sells.length) buys sells
  have hmr : matchRun tk buys sells = (b2, s2, ts) := by
    unfold matchRun
    rw [h]
  rw [hmr]
  exact ⟨matchLoop_trades_len tk _ buys sells b2 s2 ts h,
    matchLoop_reaches_terminal tk _ buys sells b2 s2 ts (le_refl _) h⟩

/-! ### Claim C7 -/

/-- Claim C7, counterexample: `add_order` with quantity 0 (non-positive)
succeeds and mutates the book — the zero-quantity order is inserted into the
buy queue of slot 0, which was empty before.  No `InvalidOrderError` (or any
failure) exists in the code. -/
theorem C7_cex_invalid_order_accepted :
    (OrderBook.start.add_order "Buy" 0 0 50).isOk = true ∧
    (booksOf (OrderBook.start.add_order "Buy" 0 0 50)).buy_orders 0 =
      [⟨"Buy", 0, 0, 50, 0⟩] ∧
    OrderBook.start.buy_orders 0 = [] := by
  refine ⟨?_, ?_, ?_⟩ <;> rfl

/-- Claim C7 (amended): `add_order` performs no validation at all: even when
quantity or price is non-positive the call succeeds (never fails), the order
is created with the current counter value, and it is inserted into the buy
queue of slot `ticker % max_tickers` when the type is "Buy" and into the sell
queue otherwise. -/
theorem C7_no_input_validation (bk : OrderBook) (ty : String) (tk : Nat) (q : Int) (p : ℚ)
    (hinvalid : q ≤ 0 ∨ p ≤ 0) :
    (∃ r, OrderBook.add_order bk ty tk q p = .ok r) ∧
    (ty = "Buy" → (⟨ty, tk, q, p, bk.order_id_counter⟩ : Order) ∈
        (bk.insert_order ty tk q p).buy_orders (tk % max_tickers)) ∧
    (¬ ty = "Buy" → (⟨ty, tk, q, p, bk.order_id_counter⟩ : Order) ∈
        (bk.insert_order ty tk q p).sell_orders (tk % max_tickers)) := by
  refine ⟨add_order_ok bk ty tk q p, ?_, ?_⟩
  · intro hty
    rw [(insert_order_buy bk ty tk q p hty).1, setQ_same]
    exact (insert_mem true _ _ _).2 (Or.inl rfl)
  · intro hty
    rw [(insert_order_sell bk ty tk q p hty).1, setQ_same]
    exact (insert_mem false _ _ _).2 (Or.inl rfl)

/-- Witness for the amended C7 at quantity 0. -/
theorem C7_witness :
    (∃ r, OrderBook.add_order OrderBook.start "Buy" 0 0 50 = .ok r) ∧
    ("Buy" = "Buy" → (⟨"Buy", 0, 0, 50, OrderBook.start.order_id_counter⟩ : Order) ∈
        (OrderBook.start.insert_order "Buy" 0 0 50).buy_orders (0 % max_tickers)) ∧
    (¬ "Buy" = "Buy" → (⟨"Buy", 0, 0, 50, OrderBook.start.order_id_counter⟩ : Order) ∈
        (OrderBook.start.insert_order "Buy" 0 0 50).sell_orders (0 % max_tickers)) :=
  C7_no_input_validation OrderBook.start "Buy" 0 0 50 (Or.inl (le_refl 0))

/-! ### Claim C8 -/

/-- Claim C8: the code has no ticker range check and no `UnknownTickerError`:
`add_order` silently routes ticker 1029 to slot `1029 % 1024 = 5`, the same
slot as ticker 5, merging the two books — a buy submitted for ticker 1029
trades directly against a sell submitted for ticker 5. -/
theorem C8_out_of_range_ticker_merged :
    1029 % max_tickers = 5 % max_tickers ∧
    tradesOf (runScript [⟨"Buy", 1029, 10, 100⟩, ⟨"Sell", 5, 10, 90⟩]) =
      [⟨5, 10, 90, 0, 1⟩] := by
  constructor
  · rfl
  · rfl

/-! ### Claim C9 -/

/-- Claim C9: `pop` fails with the "Queue is empty" error exactly when called
on an empty queue, and inside the engine this failure is unreachable: the
matching loop and therefore `add_order` always return `.ok`, for every book,
argument list and fuel — the emptiness checks guard every `pop`. -/
theorem C9_empty_pop_exact_and_unreachable :
    (∀ l : List Order, PriorityQueue.pop l = .error "Queue is empty" ↔ l = []) ∧
    (∀ (tk fuel : Nat) (buys sells : List Order),
      ∃ r, matchLoop tk fuel buys sells = .ok r) ∧
    (∀ (bk : OrderBook) (ty : String) (tk : Nat) (q : Int) (p : ℚ),
      ∃ r, OrderBook.add_order bk ty tk q p = .ok r) := by
  refine ⟨?_, fun tk fuel buys sells => matchLoop_ok tk fuel buys sells,
    fun bk ty tk q p => add_order_ok bk ty tk q p⟩
  intro l
  cases l with
  | nil => simp [PriorityQueue.pop]
  | cons h t => simp [PriorityQueue.pop]

/-! ### Claim C10 -/

/-- Claim C10: one `add_order` call only touches the buy and sell queues of
slot `ticker % max_tickers` (besides the order-id counter): the queues of
every other slot are exactly the ones from before the call. -/
theorem C10_add_order_touches_single_slot (bk : OrderBook) (ty : String) (tk : Nat)
    (q : Int) (p : ℚ) (j : Nat) (hj : j ≠ tk % max_tickers) :
    (addBook bk ty tk q p).buy_orders j = bk.buy_orders j ∧
    (addBook bk ty tk q p).sell_orders j = bk.sell_orders j := by
  obtain ⟨⟨bk', ts⟩, h⟩ := add_order_ok bk ty tk q p
  have hab : addBook bk ty tk q p = bk' := by
    unfold addBook
    rw [h]
  rw [hab]
  exact add_order_frame bk ty tk q p bk' ts j hj h

/-- Witness for C10 at a concrete call and untouched slot. -/
theorem C10_witness :
    (addBook OrderBook.start "Buy" 0 5 10).buy_orders 3 = OrderBook.start.buy_orders 3 ∧
    (addBook OrderBook.start "Buy" 0 5 10).sell_orders 3 = OrderBook.start.sell_orders 3 :=
  C10_add_order_touches_single_slot OrderBook.start "Buy" 0 5 10 3 (by decide)

end StockEngine
